import Mathlib

/-!
Verification development for the XTeam backend's execution and streaming
substrate.  Each component that the specification describes is shallowly
embedded as executable Lean definitions translated from the Python source
(`app/models/execution.py`, `app/metagpt_integration/task_queue.py`,
`app/metagpt_integration/streaming.py`, `app/middleware/rate_limit.py`,
`app/api/deps.py`, `app/core/token_blacklist.py`,
`app/metagpt_integration/file_handler.py`,
`app/websocket/message_handler.py`, `app/websocket/connection_manager.py`),
and the specified properties are stated and proved about those definitions.
Wall-clock instants are modelled as integers (seconds) where only
differences matter, and as rationals where fractional refill arithmetic
matters; machine floats carry exact values in the scenarios considered.
-/

namespace XTeam

/-! ## Execution model (`app/models/execution.py`)

`ExecutionStatus` and the `Execution` record with its lifecycle methods
`start`, `complete`, `fail`, `pause`, `resume`, `cancel`, `timeout` and the
helper `_calculate_duration`.  Timestamps are integers; `now` is passed
explicitly to each operation that reads the clock. -/

inductive ExecutionStatus where
  | pending
  | running
  | paused
  | completed
  | failed
  | cancelled
  | timeout
deriving DecidableEq, Repr

def CANCELLABLE_STATUSES : List ExecutionStatus :=
  [.pending, .running, .paused]

def PAUSABLE_STATUSES : List ExecutionStatus :=
  [.running, .pending]

def FINISHED_STATUSES : List ExecutionStatus :=
  [.completed, .failed, .cancelled, .timeout]

structure Execution where
  status : ExecutionStatus
  startedAt : Option Int
  completedAt : Option Int
  durationSeconds : Option Int
  errorMessage : Option String
  retryCount : Nat
  maxRetries : Nat
deriving DecidableEq, Repr

/-- `Execution._calculate_duration`: sets `duration_seconds` to
`completed_at - started_at` when both timestamps are present. -/
def calculateDuration (e : Execution) : Execution :=
  match e.startedAt, e.completedAt with
  | some s, some c => { e with durationSeconds := some (c - s) }
  | _, _ => e

/-- `Execution.start`: pending executions become running and record the
start timestamp; any other status is left untouched. -/
def Execution.start (e : Execution) (now : Int) : Execution :=
  if e.status = .pending then
    { e with status := .running, startedAt := some now }
  else e

/-- `Execution.complete`: unconditionally marks the execution completed,
records the completion timestamp and recomputes the duration. -/
def Execution.complete (e : Execution) (now : Int) : Execution :=
  calculateDuration
    { e with status := .completed, completedAt := some now }

/-- `Execution.fail`: unconditionally marks the execution failed, stores
the error message, records the completion timestamp and recomputes the
duration. -/
def Execution.fail (e : Execution) (msg : String) (now : Int) : Execution :=
  calculateDuration
    { e with status := .failed, errorMessage := some msg,
             completedAt := some now }

/-- `Execution.pause`: running executions become paused; any other status
is left untouched. -/
def Execution.pause (e : Execution) : Execution :=
  if e.status = .running then { e with status := .paused } else e

/-- `Execution.resume`: paused executions become running; any other status
is left untouched. -/
def Execution.resume (e : Execution) : Execution :=
  if e.status = .paused then { e with status := .running } else e

/-- `Execution.cancel`: executions in a cancellable status (pending,
running, paused) become cancelled with completion timestamp and duration;
any other status is left untouched. -/
def Execution.cancel (e : Execution) (now : Int) : Execution :=
  if e.status ∈ CANCELLABLE_STATUSES then
    calculateDuration
      { e with status := .cancelled, completedAt := some now }
  else e

/-- `Execution.timeout`: unconditionally marks the execution timed out,
records the completion timestamp, recomputes the duration and stores the
timeout error message. -/
def Execution.timeout (e : Execution) (now : Int) : Execution :=
  { calculateDuration
      { e with status := .timeout, completedAt := some now } with
    errorMessage := some "Execution timed out" }

/-- A fresh execution row as created by the message router before any
lifecycle method has run: status `pending`, no timestamps, no duration. -/
def newExecution : Execution :=
  { status := .pending, startedAt := none, completedAt := none,
    durationSeconds := none, errorMessage := none,
    retryCount := 0, maxRetries := 3 }

theorem calculateDuration_status (e : Execution) :
    (calculateDuration e).status = e.status := by
  obtain ⟨st, sa, ca, du, em, rc, mr⟩ := e
  cases sa <;> cases ca <;> rfl

theorem calculateDuration_completedAt (e : Execution) :
    (calculateDuration e).completedAt = e.completedAt := by
  obtain ⟨st, sa, ca, du, em, rc, mr⟩ := e
  cases sa <;> cases ca <;> rfl

theorem calculateDuration_startedAt (e : Execution) :
    (calculateDuration e).startedAt = e.startedAt := by
  obtain ⟨st, sa, ca, du, em, rc, mr⟩ := e
  cases sa <;> cases ca <;> rfl

/-- C4 counterexample: the claim that no operation changes the status of a
terminal execution is false.  On a `cancelled` (terminal) execution,
`complete` overwrites the status with `completed`. -/
theorem execution_terminal_not_absorbing :
    (Execution.mk .cancelled (some 0) (some 5) (some 5) none 0 3).status
        ∈ FINISHED_STATUSES
    ∧ ((Execution.mk .cancelled (some 0) (some 5) (some 5) none 0 3).complete
        10).status = .completed
    ∧ ((Execution.mk .cancelled (some 0) (some 5) (some 5) none 0 3).complete
        10).status ≠ .cancelled := by
  refine ⟨by decide, rfl, by decide⟩

/-- C4 amended: complete characterization of every lifecycle operation's
effect on the status.  The guarded operations follow the diagram exactly
(`start` only pending→running, `pause` only running→paused, `resume` only
paused→running, `cancel` only from pending/running/paused) and therefore
leave terminal states unchanged; but `complete`, `fail` and `timeout` set
their target status unconditionally, from any state including terminal
ones. -/
theorem execution_status_transitions (e : Execution) (t : Int)
    (msg : String) :
    ((e.start t).status =
        if e.status = .pending then .running else e.status)
    ∧ (e.pause.status =
        if e.status = .running then .paused else e.status)
    ∧ (e.resume.status =
        if e.status = .paused then .running else e.status)
    ∧ ((e.cancel t).status =
        if e.status ∈ CANCELLABLE_STATUSES then .cancelled else e.status)
    ∧ ((e.complete t).status = .completed)
    ∧ ((e.fail msg t).status = .failed)
    ∧ ((e.timeout t).status = .timeout) := by
  refine ⟨?_, ?_, ?_, ?_, ?_, ?_, ?_⟩
  · by_cases hp : e.status = .pending <;> simp [Execution.start, hp]
  · by_cases hp : e.status = .running <;> simp [Execution.pause, hp]
  · by_cases hp : e.status = .paused <;> simp [Execution.resume, hp]
  · by_cases hp : e.status ∈ CANCELLABLE_STATUSES <;>
      simp [Execution.cancel, hp, calculateDuration_status]
  · simp [Execution.complete, calculateDuration_status]
  · simp [Execution.fail, calculateDuration_status]
  · simp [Execution.timeout, calculateDuration_status]

/-- The completion invariant of the execution model: `completed_at` is set
iff the status is terminal, and whenever `started_at` and `completed_at`
are both set, `duration_seconds` equals their difference. -/
def ExecutionInv (e : Execution) : Prop :=
  (e.completedAt.isSome ↔ e.status ∈ FINISHED_STATUSES)
  ∧ (∀ s c : Int, e.startedAt = some s → e.completedAt = some c →
      e.durationSeconds = some (c - s))

theorem execution_inv_new : ExecutionInv newExecution := by
  constructor
  · decide
  · intro s c hs hc
    simp [newExecution] at hc

/-- C8: every lifecycle operation preserves the completion invariant, the
operations that set `completed_at` (`complete`, `fail`, `cancel` when it
fires, `timeout`) recompute `duration_seconds` in the same step, and
`start`/`pause`/`resume` touch neither field. -/
theorem execution_completed_duration (e : Execution) (t : Int)
    (msg : String) (h : ExecutionInv e) :
    ExecutionInv (e.complete t)
    ∧ ExecutionInv (e.fail msg t)
    ∧ ExecutionInv (e.cancel t)
    ∧ ExecutionInv (e.timeout t)
    ∧ ExecutionInv (e.start t)
    ∧ ExecutionInv e.pause
    ∧ ExecutionInv e.resume
    ∧ ((e.complete t).completedAt = some t)
    ∧ ((e.fail msg t).completedAt = some t)
    ∧ ((e.timeout t).completedAt = some t)
    ∧ ((e.start t).completedAt = e.completedAt
        ∧ (e.start t).durationSeconds = e.durationSeconds)
    ∧ (e.pause.completedAt = e.completedAt
        ∧ e.pause.durationSeconds = e.durationSeconds)
    ∧ (e.resume.completedAt = e.completedAt
        ∧ e.resume.durationSeconds = e.durationSeconds) := by
  obtain ⟨st, sa, ca, du, em, rc, mr⟩ := e
  obtain ⟨hiff, hdur⟩ := h
  cases sa <;> cases ca <;> cases st <;>
    simp_all [ExecutionInv, Execution.complete, Execution.fail,
      Execution.cancel, Execution.timeout, Execution.start,
      Execution.pause, Execution.resume, calculateDuration,
      FINISHED_STATUSES, CANCELLABLE_STATUSES]

/-- C8 witness: the invariant holds of a fresh execution and is carried
through a concrete `complete` step. -/
theorem execution_completed_duration_witness :
    ExecutionInv (newExecution.complete 5) :=
  (execution_completed_duration newExecution 5 "m" execution_inv_new).1

/-! ## Task queue (`app/metagpt_integration/task_queue.py`)

`Job` with its `mark_*` helpers, the outcome of a single handler run, and
`TaskQueue.process_job` / `TaskQueue._process_job` combined into one step
that yields the final job record, the optional backoff-and-re-enqueue and
the optional dead-letter-queue entry. -/

inductive JobStatus where
  | pending
  | running
  | completed
  | failed
  | cancelled
  | timeout
  | retrying
deriving DecidableEq, Repr

inductive JobPriority where
  | low
  | normal
  | high
  | critical
deriving DecidableEq, Repr

def JobPriority.val : JobPriority → Int
  | .low => 1
  | .normal => 5
  | .high => 10
  | .critical => 20

structure Job where
  jobId : String
  jobType : String
  status : JobStatus
  priority : JobPriority
  startedAt : Option Int
  completedAt : Option Int
  result : Option String
  error : Option String
  retryCount : Nat
  maxRetries : Nat
  timeoutSeconds : Nat
deriving DecidableEq, Repr

/-- `Job.mark_running`. -/
def markRunning (j : Job) (now : Int) : Job :=
  { j with status := .running, startedAt := some now }

/-- `Job.mark_completed`. -/
def markCompleted (j : Job) (res : String) (now : Int) : Job :=
  { j with status := .completed, completedAt := some now,
           result := some res }

/-- `Job.mark_failed`. -/
def markFailed (j : Job) (e : String) (now : Int) : Job :=
  { j with status := .failed, completedAt := some now, error := some e }

/-- `Job.mark_timeout`. -/
def markTimeout (j : Job) (now : Int) : Job :=
  { j with status := .timeout, completedAt := some now,
           error := some ("Job timed out after "
             ++ toString j.timeoutSeconds ++ " seconds") }

/-- `Job.can_retry`. -/
def canRetry (j : Job) : Bool :=
  j.retryCount < j.maxRetries

/-- `Job.increment_retry`: bumps the count, marks `retrying`, clears the
error. -/
def incrementRetry (j : Job) : Job :=
  { j with retryCount := j.retryCount + 1, status := .retrying,
           error := none }

/-- What the registered handler did on this run; `none` at the call site
of `processJobInner` means no handler was registered for `job.job_type`. -/
inductive HandlerOutcome where
  | success (res : String)
  | timedOut
  | raised (errMsg : String)
deriving DecidableEq, Repr

/-- `TaskQueue._process_job`: run the handler under the timeout and update
the job record (the `_save_job` persistence calls write out the record
produced here). -/
def processJobInner (j : Job) (handler : Option HandlerOutcome)
    (now : Int) : Job :=
  match handler with
  | none => markFailed j ("No handler registered for job type: "
      ++ j.jobType) now
  | some outcome =>
    let j := markRunning j now
    match outcome with
    | .success res => markCompleted j res now
    | .timedOut => markTimeout j now
    | .raised e => if canRetry j then incrementRetry j
        else markFailed j e now

/-- One dead-letter-queue entry, as built by
`TaskQueue._handle_dead_letter`. -/
structure DlqEntry where
  jobId : String
  jobType : String
  error : Option String
  failedAt : Int
  retryCount : Nat
deriving DecidableEq, Repr

/-- The observable outcome of `TaskQueue.process_job` on one job: the
final job record, the optional `(backoff sleep, zadd score)` re-enqueue,
and the optional DLQ push. -/
structure ProcessResult where
  job : Job
  backoffSeconds : Option Nat
  reenqueueScore : Option Int
  dlqEntry : Option DlqEntry
deriving DecidableEq, Repr

/-- `TaskQueue.process_job`: after `_process_job`, a `retrying` job is
re-enqueued with score `-priority` after `min(2 ** retry_count * 60,
3600)` seconds, and a `failed` job is pushed to the dead-letter queue. -/
def processJob (j : Job) (handler : Option HandlerOutcome)
    (now : Int) : ProcessResult :=
  let j' := processJobInner j handler now
  if j'.status = .retrying then
    { job := j',
      backoffSeconds := some (min (2 ^ j'.retryCount * 60) 3600),
      reenqueueScore := some (-j'.priority.val),
      dlqEntry := none }
  else if j'.status = .failed then
    { job := j', backoffSeconds := none, reenqueueScore := none,
      dlqEntry := some ⟨j'.jobId, j'.jobType, j'.error, now,
        j'.retryCount⟩ }
  else
    { job := j', backoffSeconds := none, reenqueueScore := none,
      dlqEntry := none }

/-- C2: when the handler raises, a job with retry budget left is
incremented, marked `retrying` and re-enqueued with its own priority
after `min(2^retry_count * 60, 3600)` seconds (the exponent being the
incremented count, which the code computes after `increment_retry`);
a job without budget is marked `failed` and exactly one entry
`{job_id, job_type, error, failed_at, retry_count}` goes to the DLQ; in
particular `max_retries = 0` sends the first failure straight to the
DLQ. -/
theorem job_retry_and_dead_letter (j : Job) (e : String) (now : Int) :
    (j.retryCount < j.maxRetries →
      (processJob j (some (.raised e)) now).job.retryCount
          = j.retryCount + 1
      ∧ (processJob j (some (.raised e)) now).job.status = .retrying
      ∧ (processJob j (some (.raised e)) now).backoffSeconds
          = some (min (2 ^ (j.retryCount + 1) * 60) 3600)
      ∧ (processJob j (some (.raised e)) now).reenqueueScore
          = some (-j.priority.val)
      ∧ (processJob j (some (.raised e)) now).dlqEntry = none)
    ∧ (¬ j.retryCount < j.maxRetries →
      (processJob j (some (.raised e)) now).job.status = .failed
      ∧ (processJob j (some (.raised e)) now).dlqEntry
          = some ⟨j.jobId, j.jobType, some e, now, j.retryCount⟩
      ∧ (processJob j (some (.raised e)) now).backoffSeconds = none
      ∧ (processJob j (some (.raised e)) now).reenqueueScore = none)
    ∧ (j.maxRetries = 0 →
      (processJob j (some (.raised e)) now).job.status = .failed
      ∧ (processJob j (some (.raised e)) now).dlqEntry
          = some ⟨j.jobId, j.jobType, some e, now, j.retryCount⟩) := by
  refine ⟨?_, ?_, ?_⟩
  · intro hlt
    simp [processJob, processJobInner, markRunning, incrementRetry,
      canRetry, hlt]
  · intro hge
    simp [processJob, processJobInner, markRunning, markFailed,
      canRetry, hge]
  · intro h0
    have hge : ¬ j.retryCount < j.maxRetries := by omega
    simp [processJob, processJobInner, markRunning, markFailed,
      canRetry, hge]

/-- C2 witness: a concrete job with budget retries, and the same job with
`max_retries = 0` dead-letters on first failure. -/
theorem job_retry_and_dead_letter_witness :
    ((0 : Nat) < 2
      ∧ (processJob (Job.mk "j1" "workflow" .pending .high none none
            none none 0 2 3600) (some (.raised "boom")) 7).job.status
          = .retrying)
    ∧ (processJob (Job.mk "j2" "workflow" .pending .normal none none
          none none 0 0 3600) (some (.raised "boom")) 7).dlqEntry
        = some ⟨"j2", "workflow", some "boom", 7, 0⟩ := by
  refine ⟨⟨by decide, ?_⟩, ?_⟩
  · exact ((job_retry_and_dead_letter
      (Job.mk "j1" "workflow" .pending .high none none none none 0 2
        3600) "boom" 7).1 (by decide)).2.1
  · exact ((job_retry_and_dead_letter
      (Job.mk "j2" "workflow" .pending .normal none none none none 0 0
        3600) "boom" 7).2.2 rfl).2

/-! ## Event bus (`app/metagpt_integration/streaming.py`)

`StreamEvent`, `EventFilter.matches`, `Subscriber.send_event` and the
batch flush `StreamingHandler._flush_buffer_unsafe`.  Python sets in the
filter are lists here; `None` and the empty set are both falsy in the
source, which `present` reproduces.  The flush sorts the buffer by
priority descending (Python's `sorted` is stable; so is insertion sort
with a reflexive total order). -/

inductive EventType where
  | agentStart
  | agentComplete
  | agentError
  | executionStart
  | executionProgress
  | executionComplete
  | executionFailed
  | executionCancelled
  | logMessage
  | logBatch
  | fileCreated
  | fileModified
  | fileDeleted
  | fileBatch
  | statusUpdate
  | progressUpdate
  | heartbeat
  | connectionAck
  | error
deriving DecidableEq, Repr

inductive EventPriority where
  | low
  | normal
  | high
  | critical
deriving DecidableEq, Repr

def EventPriority.val : EventPriority → Int
  | .low => 1
  | .normal => 5
  | .high => 10
  | .critical => 20

/-- `StreamEvent`; `data` and `metadata` are opaque payloads the filter
never inspects. -/
structure StreamEvent where
  eventType : EventType
  data : String
  timestamp : Int
  source : String
  executionId : Option String
  projectId : Option String
  priority : EventPriority
deriving DecidableEq, Repr

structure EventFilter where
  eventTypes : Option (List EventType)
  sources : Option (List String)
  executionIds : Option (List String)
  projectIds : Option (List String)
  minPriority : EventPriority
deriving DecidableEq, Repr

/-- Python truthiness of an optional set (`None` and the empty set are
falsy). -/
def present : Option (List α) → Bool
  | none => false
  | some l => !l.isEmpty

/-- Python `x in s` where `x` is an optional string and `s` a set of
strings (`None in s` is `False`). -/
def optMem (x : Option String) (l : List String) : Bool :=
  match x with
  | none => false
  | some v => l.contains v

/-- `EventFilter.matches`: each truthy criterion must hold, and the
priority must reach `min_priority`. -/
def EventFilter.matches (f : EventFilter) (e : StreamEvent) : Bool :=
  if present f.eventTypes
      && !((f.eventTypes.getD []).contains e.eventType) then false
  else if present f.sources
      && !((f.sources.getD []).contains e.source) then false
  else if present f.executionIds
      && !(optMem e.executionId (f.executionIds.getD [])) then false
  else if present f.projectIds
      && !(optMem e.projectId (f.projectIds.getD [])) then false
  else if e.priority.val < f.minPriority.val then false
  else true

structure Subscriber where
  subscriberId : String
  filter : EventFilter
  active : Bool
  eventsReceived : Nat
deriving DecidableEq, Repr

/-- `Subscriber.send_event`: inactive or filtered-out events are not
delivered; `callbackOk` stands for the callback finishing without an
exception. -/
def sendEvent (s : Subscriber) (e : StreamEvent) (callbackOk : Bool) :
    Bool × Subscriber :=
  if !s.active then (false, s)
  else if !(s.filter.matches e) then (false, s)
  else if callbackOk then
    (true, { s with eventsReceived := s.eventsReceived + 1 })
  else (false, s)

/-- C5: `matches` is the conjunction of its optional criteria — a truthy
(present, non-empty) criterion must contain the event's field and the
priority must reach the minimum — and consequently an event with no
`project_id` is never delivered to a subscriber whose filter names
projects. -/
theorem event_filter_matches_conjunction (f : EventFilter)
    (e : StreamEvent) :
    (f.matches e = true ↔
      ((present f.eventTypes = true →
          (f.eventTypes.getD []).contains e.eventType = true)
        ∧ (present f.sources = true →
          (f.sources.getD []).contains e.source = true)
        ∧ (present f.executionIds = true →
          optMem e.executionId (f.executionIds.getD []) = true)
        ∧ (present f.projectIds = true →
          optMem e.projectId (f.projectIds.getD []) = true)
        ∧ f.minPriority.val ≤ e.priority.val))
    ∧ (∀ p rest, f.projectIds = some (p :: rest) → e.projectId = none →
        f.matches e = false)
    ∧ (∀ (s : Subscriber) (cb : Bool), s.filter.matches e = false →
        (sendEvent s e cb).1 = false) := by
  refine ⟨?_, ?_, ?_⟩
  · unfold EventFilter.matches
    split_ifs with h1 h2 h3 h4 h5 <;> simp_all
  · intro p rest hps hpe
    unfold EventFilter.matches
    have : present f.projectIds = true := by simp [hps, present]
    have hmem : optMem e.projectId (f.projectIds.getD []) = false := by
      simp [hpe, optMem]
    split
    · rfl
    · split
      · rfl
      · split
        · rfl
        · split
          · rfl
          · rename_i h4
            exact absurd (by simp [this, hmem]) h4
  · intro s cb hm
    unfold sendEvent
    split
    · rfl
    · simp [hm]

/-- C5 witness: with project filters `{P1}` and `{P2}`, an event carrying
no project id matches neither. -/
theorem event_filter_matches_conjunction_witness :
    (EventFilter.mk none none none (some ["P1"]) .low).matches
        (StreamEvent.mk .logMessage "d" 0 "agent" none none .normal)
      = false
    ∧ (EventFilter.mk none none none (some ["P2"]) .low).matches
        (StreamEvent.mk .logMessage "d" 0 "agent" none none .normal)
      = false :=
  ⟨((event_filter_matches_conjunction
      (EventFilter.mk none none none (some ["P1"]) .low)
      (StreamEvent.mk .logMessage "d" 0 "agent" none none
        .normal)).2.1) "P1" [] rfl rfl,
   ((event_filter_matches_conjunction
      (EventFilter.mk none none none (some ["P2"]) .low)
      (StreamEvent.mk .logMessage "d" 0 "agent" none none
        .normal)).2.1) "P2" [] rfl rfl⟩

/-- Priority-descending comparison used by the flush sort (the Python
`sorted(..., key=priority, reverse=True)`). -/
def priGE (a b : StreamEvent) : Prop :=
  b.priority.val ≤ a.priority.val

instance : DecidableRel priGE :=
  fun a b => inferInstanceAs (Decidable (b.priority.val ≤ a.priority.val))

instance : IsTotal StreamEvent priGE :=
  ⟨fun _ _ => by unfold priGE; exact le_total _ _⟩

instance : IsTrans StreamEvent priGE :=
  ⟨fun a b c h1 h2 => by unfold priGE at *; exact le_trans h2 h1⟩

/-- `StreamingHandler._flush_buffer_unsafe`: the buffered events of one
batch, sorted by priority descending (stably), in delivery order. -/
def flushBatch (buffer : List StreamEvent) : List StreamEvent :=
  List.insertionSort priGE buffer

/-- The subsequence of a flushed batch that a filter lets through, in the
order the flush hands the events to that subscriber's callback. -/
def deliveriesTo (f : EventFilter) (batch : List StreamEvent) :
    List StreamEvent :=
  (flushBatch batch).filter fun e => f.matches e

/-- Delivery across consecutive batches: each batch is flushed in arrival
order, so the delivered stream is the concatenation of the per-batch
deliveries. -/
def deliverAll (f : EventFilter) (batches : List (List StreamEvent)) :
    List StreamEvent :=
  (batches.map (deliveriesTo f)).flatten

/-- C6: a flushed batch is a permutation of the buffer sorted so that any
earlier event has priority ≥ any later one; the per-subscriber delivery
(the filtered subsequence) keeps that order; and across batches delivery
follows batch arrival order. -/
theorem flush_delivers_priority_descending (buffer : List StreamEvent)
    (f : EventFilter) (batches : List (List StreamEvent)) :
    (flushBatch buffer).Pairwise priGE
    ∧ (flushBatch buffer).Perm buffer
    ∧ (deliveriesTo f buffer).Pairwise priGE
    ∧ deliverAll f (buffer :: batches)
        = deliveriesTo f buffer ++ deliverAll f batches := by
  have hsorted : (flushBatch buffer).Pairwise priGE :=
    List.sorted_insertionSort priGE buffer
  refine ⟨hsorted, List.perm_insertionSort priGE buffer, ?_, ?_⟩
  · exact List.Pairwise.sublist (List.filter_sublist _) hsorted
  · rfl

/-! ## Rate limiter (`app/middleware/rate_limit.py`)

`TokenBucket.consume` and the admission decision of
`RateLimitMiddleware.dispatch` for one client identity.  Time is a
rational number of seconds; the refill arithmetic of the source is exact
on the inputs considered.  The refill-then-consume body of `consume` is
written with the refilled amount spelled out in both branches. -/

structure TokenBucket where
  capacity : ℚ
  refillRate : ℚ
  tokens : ℚ
  lastRefill : ℚ
deriving DecidableEq, Repr

/-- `TokenBucket.consume` with `tokens=1`: refill proportionally to the
elapsed time, capped at capacity, then take one token if available. -/
def TokenBucket.consume (b : TokenBucket) (now : ℚ) : Bool × TokenBucket :=
  if 1 ≤ min b.capacity
      (b.tokens + (now - b.lastRefill) * b.refillRate) then
    (true, { b with
      tokens := min b.capacity
        (b.tokens + (now - b.lastRefill) * b.refillRate) - 1,
      lastRefill := now })
  else
    (false, { b with
      tokens := min b.capacity
        (b.tokens + (now - b.lastRefill) * b.refillRate),
      lastRefill := now })

/-- The bucket `RateLimitMiddleware` creates for a fresh identity:
capacity `requests_per_minute`, refill rate `requests_per_minute / 60`,
initially full. -/
def mkBucket (n : ℕ) (t0 : ℚ) : TokenBucket :=
  { capacity := n, refillRate := n / 60, tokens := n, lastRefill := t0 }

/-- Run one bucket over a sequence of request instants, returning the
final bucket and the admission decision for each request in order. -/
def runBucket (b : TokenBucket) : List ℚ → TokenBucket × List Bool
  | [] => (b, [])
  | t :: ts =>
    ((runBucket (b.consume t).2 ts).1,
     (b.consume t).1 :: (runBucket (b.consume t).2 ts).2)

/-- Number of admitted requests in a run. -/
def admittedCount (b : TokenBucket) (ts : List ℚ) : ℕ :=
  (runBucket b ts).2.count true

/-- The response `RateLimitMiddleware.dispatch` produces for one
non-health request: pass-through headers on admission, a 429 with
`Retry-After: 60` and zero remaining on rejection. -/
structure RateLimitDecision where
  allowed : Bool
  statusCode : Nat
  retryAfter : Option String
  remainingHeader : Int
deriving DecidableEq, Repr

def dispatchDecision (b : TokenBucket) (now : ℚ) :
    RateLimitDecision × TokenBucket :=
  if (b.consume now).1 then
    ({ allowed := true, statusCode := 200, retryAfter := none,
       remainingHeader := ⌊(b.consume now).2.tokens⌋ }, (b.consume now).2)
  else
    ({ allowed := false, statusCode := 429, retryAfter := some "60",
       remainingHeader := 0 }, (b.consume now).2)

/-- One admission as a rational (1 if admitted, 0 otherwise). -/
def admitVal (ok : Bool) : ℚ := if ok then 1 else 0

/-- Last element of a list with a default, the instant the bucket's
`last_refill` holds after processing the list. -/
def lastTimeD (ts : List ℚ) (d : ℚ) : ℚ :=
  ts.getLast?.getD d

theorem lastTimeD_cons (t : ℚ) (ts : List ℚ) (d : ℚ) :
    lastTimeD (t :: ts) d = lastTimeD ts t := by
  cases ts with
  | nil => simp [lastTimeD]
  | cons h l =>
    have hnil : (h :: l) ≠ [] := by simp
    simp [lastTimeD, List.getLast?_cons_cons,
      List.getLast?_eq_getLast_of_ne_nil hnil]

theorem lastTimeD_mem_or (ts : List ℚ) (d : ℚ) :
    lastTimeD ts d = d ∨ lastTimeD ts d ∈ ts := by
  cases ts with
  | nil => left; simp [lastTimeD]
  | cons h l =>
    right
    have hnil : (h :: l) ≠ [] := by simp
    simp only [lastTimeD, List.getLast?_eq_getLast_of_ne_nil hnil,
      Option.getD_some]
    exact List.getLast_mem hnil

theorem consume_tokens_eq (b : TokenBucket) (t : ℚ) :
    admitVal (b.consume t).1 + (b.consume t).2.tokens
      = min b.capacity (b.tokens + (t - b.lastRefill) * b.refillRate)
    ∧ (b.consume t).2.lastRefill = t
    ∧ (b.consume t).2.capacity = b.capacity
    ∧ (b.consume t).2.refillRate = b.refillRate := by
  unfold TokenBucket.consume
  split_ifs with h <;> simp [admitVal]

theorem consume_tokens_nonneg (b : TokenBucket) (t : ℚ)
    (h0 : 0 ≤ b.tokens) (hlast : b.lastRefill ≤ t)
    (hr : 0 ≤ b.refillRate) (hcap : 0 ≤ b.capacity) :
    0 ≤ (b.consume t).2.tokens := by
  unfold TokenBucket.consume
  split_ifs with h
  · simp only
    linarith
  · simp only
    exact le_min hcap
      (add_nonneg h0 (mul_nonneg (by linarith) hr))

/-- Telescoping bound: over any nondecreasing request sequence, the
admissions plus the leftover tokens are bounded by the initial tokens
plus what the refill adds over the elapsed span. -/
theorem runBucket_tail_bound (ts : List ℚ) : ∀ (b : TokenBucket),
    0 ≤ b.refillRate → 0 ≤ b.capacity → 0 ≤ b.tokens →
    ts.Pairwise (· ≤ ·) → (∀ t ∈ ts, b.lastRefill ≤ t) →
    ((admittedCount b ts : ℚ) + (runBucket b ts).1.tokens
        ≤ b.tokens
          + (lastTimeD ts b.lastRefill - b.lastRefill) * b.refillRate)
    ∧ 0 ≤ (runBucket b ts).1.tokens
    ∧ (runBucket b ts).1.lastRefill = lastTimeD ts b.lastRefill
    ∧ (runBucket b ts).1.refillRate = b.refillRate
    ∧ (runBucket b ts).1.capacity = b.capacity := by
  induction ts with
  | nil =>
    intro b hr hcap htok _ _
    refine ⟨?_, htok, rfl, rfl, rfl⟩
    simp [admittedCount, runBucket, lastTimeD]
  | cons t ts ih =>
    intro b hr hcap htok hpair hmono
    obtain ⟨hstep, hlast, hscap, hsrate⟩ := consume_tokens_eq b t
    have hheadle : b.lastRefill ≤ t := hmono t (by simp)
    have hpair' := (List.pairwise_cons.mp hpair)
    have htok' : 0 ≤ (b.consume t).2.tokens :=
      consume_tokens_nonneg b t htok hheadle hr hcap
    have hmono' : ∀ u ∈ ts, (b.consume t).2.lastRefill ≤ u := by
      intro u hu; rw [hlast]; exact hpair'.1 u hu
    obtain ⟨ihbound, ihnn, ihlast, ihrate, ihcap⟩ :=
      ih (b.consume t).2 (hsrate ▸ hr) (hscap ▸ hcap) htok'
        hpair'.2 hmono'
    have hcount : (admittedCount b (t :: ts) : ℚ)
        = admitVal (b.consume t).1 + admittedCount (b.consume t).2 ts := by
      simp only [admittedCount, runBucket, List.count_cons, admitVal]
      cases h : (b.consume t).1 <;> push_cast <;> simp [h] <;> ring
    have hminle : min b.capacity
        (b.tokens + (t - b.lastRefill) * b.refillRate)
        ≤ b.tokens + (t - b.lastRefill) * b.refillRate :=
      min_le_right _ _
    refine ⟨?_, ?_, ?_, ?_, ?_⟩
    · rw [hcount, lastTimeD_cons]
      have : (runBucket b (t :: ts)).1 = (runBucket (b.consume t).2 ts).1 :=
        rfl
      rw [this]
      rw [hlast, hsrate] at ihbound
      calc admitVal (b.consume t).1 + (admittedCount (b.consume t).2 ts : ℚ)
            + (runBucket (b.consume t).2 ts).1.tokens
          ≤ admitVal (b.consume t).1 + ((b.consume t).2.tokens
            + (lastTimeD ts t - t) * b.refillRate) := by linarith
        _ = (admitVal (b.consume t).1 + (b.consume t).2.tokens)
            + (lastTimeD ts t - t) * b.refillRate := by ring
        _ ≤ (b.tokens + (t - b.lastRefill) * b.refillRate)
            + (lastTimeD ts t - t) * b.refillRate := by
              rw [hstep]; linarith
        _ = b.tokens
            + (lastTimeD ts t - b.lastRefill) * b.refillRate := by ring
    · exact ihnn
    · rw [show (runBucket b (t :: ts)).1
          = (runBucket (b.consume t).2 ts).1 from rfl, ihlast, hlast,
        lastTimeD_cons]
    · rw [show (runBucket b (t :: ts)).1
          = (runBucket (b.consume t).2 ts).1 from rfl, ihrate, hsrate]
    · rw [show (runBucket b (t :: ts)).1
          = (runBucket (b.consume t).2 ts).1 from rfl, ihcap, hscap]

/-- Window bound from an arbitrary reachable bucket state: the first
request of the window can take at most a full bucket (the refill is
capped at capacity), and the rest at most what the refill adds. -/
theorem runBucket_window_bound (w0 : ℚ) (rest : List ℚ)
    (b : TokenBucket) (hr : 0 ≤ b.refillRate) (hcap : 0 ≤ b.capacity)
    (htok : 0 ≤ b.tokens) (hlast : b.lastRefill ≤ w0)
    (hpair : (w0 :: rest).Pairwise (· ≤ ·)) :
    (admittedCount b (w0 :: rest) : ℚ)
      ≤ b.capacity
        + (lastTimeD (w0 :: rest) w0 - w0) * b.refillRate := by
  obtain ⟨hstep, hlastc, hscap, hsrate⟩ := consume_tokens_eq b w0
  have hpair' := (List.pairwise_cons.mp hpair)
  have htok' : 0 ≤ (b.consume w0).2.tokens :=
    consume_tokens_nonneg b w0 htok hlast hr hcap
  have hmono' : ∀ u ∈ rest, (b.consume w0).2.lastRefill ≤ u := by
    intro u hu; rw [hlastc]; exact hpair'.1 u hu
  obtain ⟨ihbound, ihnn, _, _, _⟩ :=
    runBucket_tail_bound rest (b.consume w0).2 (hsrate ▸ hr)
      (hscap ▸ hcap) htok' hpair'.2 hmono'
  have hcount : (admittedCount b (w0 :: rest) : ℚ)
      = admitVal (b.consume w0).1
        + admittedCount (b.consume w0).2 rest := by
    simp only [admittedCount, runBucket, List.count_cons, admitVal]
    cases h : (b.consume w0).1 <;> push_cast <;> simp [h] <;> ring
  have hstepcap : admitVal (b.consume w0).1 + (b.consume w0).2.tokens
      ≤ b.capacity := by rw [hstep]; exact min_le_left _ _
  rw [hcount, lastTimeD_cons]
  rw [hlastc, hsrate] at ihbound
  linarith

/-- C7 counterexample: with capacity 3 (refill 3/60 per second), the
requests at instants 0, 0, 0, 20, 40 — all inside one 60-second window —
are all admitted: 5 admissions exceed capacity + 1 = 4. -/
theorem rate_limit_counterexample :
    admittedCount (mkBucket 3 0) [0, 0, 0, 20, 40] = 5
    ∧ ((40 : ℚ) - 0 ≤ 60)
    ∧ ¬ (admittedCount (mkBucket 3 0) [0, 0, 0, 20, 40] ≤ 3 + 1) := by
  refine ⟨?_, by norm_num, ?_⟩
  · norm_num [admittedCount, runBucket, TokenBucket.consume, mkBucket,
      min_def]
  · norm_num [admittedCount, runBucket, TokenBucket.consume, mkBucket,
      min_def]

/-- C7 amended: the bucket for an identity has capacity N and refill rate
N/60 per second, an admitted request takes exactly one token from the
capped refilled amount, a rejected request is answered 429 with a
`Retry-After: 60` hint and zero remaining — and over any sliding
60-second window the admitted operations are at most 2·capacity (a full
burst plus at most a full capacity refilled within the window), rather
than capacity + 1. -/
theorem rate_limit_token_bucket (n : ℕ) (t0 : ℚ) (pre win : List ℚ)
    (hpair : (pre ++ win).Pairwise (· ≤ ·))
    (ht0 : ∀ t ∈ pre ++ win, t0 ≤ t)
    (hspan : ∀ a ∈ win, ∀ c ∈ win, c - a ≤ 60) :
    (mkBucket n t0).capacity = n
    ∧ (mkBucket n t0).refillRate = n / 60
    ∧ (∀ (b : TokenBucket) (now : ℚ), (b.consume now).1 = true →
        (b.consume now).2.tokens
          = min b.capacity
              (b.tokens + (now - b.lastRefill) * b.refillRate) - 1)
    ∧ (∀ (b : TokenBucket) (now : ℚ), (b.consume now).1 = false →
        (dispatchDecision b now).1.statusCode = 429
        ∧ (dispatchDecision b now).1.retryAfter = some "60"
        ∧ (dispatchDecision b now).1.remainingHeader = 0)
    ∧ admittedCount ((runBucket (mkBucket n t0) pre).1) win ≤ 2 * n := by
  refine ⟨rfl, rfl, ?_, ?_, ?_⟩
  · intro b now h
    unfold TokenBucket.consume at *
    split_ifs at h ⊢ <;> simp_all
  · intro b now h
    unfold dispatchDecision
    simp [h]
  · have hsplit := List.pairwise_append.mp hpair
    cases win with
    | nil => simp [admittedCount, runBucket]
    | cons w0 rest =>
      have hw0mem : w0 ∈ pre ++ (w0 :: rest) := by simp
      obtain ⟨_, hnn, hlastpre, hrateb, hcapb⟩ :=
        runBucket_tail_bound pre (mkBucket n t0)
          (by simp only [mkBucket]; positivity)
          (by simp only [mkBucket]; positivity)
          (by simp only [mkBucket]; positivity)
          hsplit.1
          (by intro t ht; exact ht0 t (by simp [ht]))
      have hmkl : (mkBucket n t0).lastRefill = t0 := rfl
      have hmkr : (mkBucket n t0).refillRate = (n : ℚ) / 60 := rfl
      have hmkc : (mkBucket n t0).capacity = (n : ℚ) := rfl
      rw [hmkl] at hlastpre
      rw [hmkr] at hrateb
      rw [hmkc] at hcapb
      have hlastle : (runBucket (mkBucket n t0) pre).1.lastRefill
          ≤ w0 := by
        rw [hlastpre]
        rcases lastTimeD_mem_or pre t0 with h | h
        · rw [h]; exact ht0 w0 hw0mem
        · exact hsplit.2.2 _ h w0 (by simp)
      have hwin := runBucket_window_bound w0 rest
        ((runBucket (mkBucket n t0) pre).1)
        (by rw [hrateb]; positivity)
        (by rw [hcapb]; positivity)
        hnn hlastle hsplit.2.1
      rw [hcapb, hrateb] at hwin
      have hlmem : lastTimeD (w0 :: rest) w0 ∈ w0 :: rest := by
        rcases lastTimeD_mem_or (w0 :: rest) w0 with h | h
        · rw [h]; simp
        · exact h
      have hspanw : lastTimeD (w0 :: rest) w0 - w0 ≤ 60 :=
        hspan w0 (by simp) _ hlmem
      have hrnn : (0 : ℚ) ≤ (n : ℚ) / 60 := by positivity
      have hmul : (lastTimeD (w0 :: rest) w0 - w0) * ((n : ℚ) / 60)
          ≤ 60 * ((n : ℚ) / 60) :=
        mul_le_mul_of_nonneg_right hspanw hrnn
      have h60 : (60 : ℚ) * ((n : ℚ) / 60) = n := by ring
      have hq : (admittedCount ((runBucket (mkBucket n t0) pre).1)
          (w0 :: rest) : ℚ) ≤ 2 * n := by
        calc (admittedCount ((runBucket (mkBucket n t0) pre).1)
              (w0 :: rest) : ℚ)
            ≤ (n : ℚ)
              + (lastTimeD (w0 :: rest) w0 - w0) * ((n : ℚ) / 60) :=
              hwin
          _ ≤ (n : ℚ) + 60 * ((n : ℚ) / 60) := by linarith
          _ = 2 * n := by rw [h60]; ring
      exact_mod_cast hq

/-- C7 witness: the bucket shape, one concrete rejection, and the window
bound on a concrete admissible trace. -/
theorem rate_limit_token_bucket_witness :
    (mkBucket 3 0).capacity = 3
    ∧ admittedCount (runBucket (mkBucket 3 0) []).1 [0, 0, 0, 20, 40]
        ≤ 2 * 3 := by
  have h := rate_limit_token_bucket 3 0 [] [0, 0, 0, 20, 40]
    (by norm_num [List.pairwise_cons])
    (by intro t ht; fin_cases ht <;> norm_num)
    (by
      intro a ha c hc
      fin_cases ha <;> fin_cases hc <;> norm_num)
  exact ⟨h.1, h.2.2.2.2⟩

/-! ## Token authority (`app/api/deps.py`, `app/core/token_blacklist.py`,
`app/main.py`)

`get_current_user` authenticates HTTP requests from the bearer token; the
blacklist service answers revocation queries; the WebSocket endpoint in
`app/main.py` performs its own token check.  JWT decoding (signature and
expiry) and the user table are passed in as functions; the blacklist
store is part of the world state. -/

/-- The decoded claims `verify_token` returns on success. -/
structure TokenPayload where
  sub : Option String
deriving DecidableEq, Repr

structure UserRec where
  isActive : Bool
  isSuperuser : Bool
deriving DecidableEq, Repr

/-- The reachable external state: the Redis-backed blacklist (token keys
and per-user keys) and whether the store is connected. -/
structure AuthWorld where
  blacklist : List String
  userBlacklist : List String
  redisConnected : Bool
deriving DecidableEq, Repr

/-- `TokenBlacklistService.is_token_revoked`: fails open when the store
is down, otherwise keys decide. -/
def isTokenRevoked (w : AuthWorld) (token : String) : Bool :=
  if !w.redisConnected then false
  else w.blacklist.contains token

/-- `TokenBlacklistService.is_user_tokens_revoked`. -/
def isUserTokensRevoked (w : AuthWorld) (uid : String) : Bool :=
  if !w.redisConnected then false
  else w.userBlacklist.contains uid

inductive AuthOutcome where
  | authorized (userId : String)
  | unauthorized (detail : String)
  | notFound (detail : String)
  | forbidden (detail : String)
deriving DecidableEq, Repr

/-- `get_current_user` (`app/api/deps.py`): missing/empty credential,
undecodable token, missing subject, unknown user, inactive user — in that
order.  Note that the world `w` (the blacklist store) is never read. -/
def getCurrentUser (w : AuthWorld) (credentials : Option String)
    (verify : String → Option TokenPayload)
    (users : String → Option UserRec) : AuthOutcome :=
  match credentials with
  | none => .unauthorized "Missing authorization credentials"
  | some token =>
    if token = "" then .unauthorized "Invalid token format"
    else
      match verify token with
      | none => .unauthorized "Invalid or expired token"
      | some payload =>
        match payload.sub with
        | none => .unauthorized "Invalid token payload"
        | some userId =>
          if userId = "" then .unauthorized "Invalid token payload"
          else
            match users userId with
            | none => .notFound "User not found"
            | some u =>
              if !u.isActive then .forbidden "User account is inactive"
              else .authorized userId

inductive WsAuthOutcome where
  | rejected (reason : String)
  | accepted (userId : String)
deriving DecidableEq, Repr

/-- The WebSocket handshake authentication of `app/main.py`: unlike
`getCurrentUser` it consults the blacklist (per-token and per-user)
before accepting. -/
def websocketAuth (w : AuthWorld) (tokenParam : Option String)
    (verify : String → Option TokenPayload)
    (users : String → Option UserRec) : WsAuthOutcome :=
  match tokenParam with
  | none => .rejected "Authentication required"
  | some token =>
    if token = "" then .rejected "Authentication required"
    else
      match verify token with
      | none => .rejected "Invalid or expired token"
      | some payload =>
        match payload.sub with
        | none => .rejected "Invalid token payload"
        | some uid =>
          if uid = "" then .rejected "Invalid token payload"
          else if isTokenRevoked w token then
            .rejected "Token has been revoked"
          else if isUserTokensRevoked w uid then
            .rejected "All user tokens revoked"
          else
            match users uid with
            | none => .rejected "User not found or inactive"
            | some u =>
              if !u.isActive then
                .rejected "User not found or inactive"
              else .accepted uid

/-- A signature-valid unexpired decode for the revoked token `tok`. -/
def verifyStub : String → Option TokenPayload :=
  fun t => if t = "tok" then some { sub := some "u1" } else none

/-- A user table holding the active user `u1`. -/
def usersStub : String → Option UserRec :=
  fun uid => if uid = "u1" then
    some { isActive := true, isSuperuser := false } else none

/-- A reachable blacklist store in which `tok` has been revoked. -/
def revokedWorld : AuthWorld :=
  { blacklist := ["tok"], userBlacklist := [], redisConnected := true }

/-- C1 evaluation at the failing input: `tok` is revoked and the store is
reachable, yet `getCurrentUser` authenticates the bearer — its outcome is
the same for every blacklist state, because the definition never reads
the world.  The WebSocket handshake, by contrast, rejects the same
token. -/
theorem get_current_user_accepts_revoked_token :
    isTokenRevoked revokedWorld "tok" = true
    ∧ getCurrentUser revokedWorld (some "tok") verifyStub usersStub
        = .authorized "u1"
    ∧ (∀ w : AuthWorld,
        getCurrentUser w (some "tok") verifyStub usersStub
          = .authorized "u1")
    ∧ websocketAuth revokedWorld (some "tok") verifyStub usersStub
        = .rejected "Token has been revoked" := by
  refine ⟨rfl, rfl, fun _ => rfl, rfl⟩

/-! ## Message router (`app/websocket/message_handler.py`)

`MessageType`, the response record and the routing shell of
`MessageHandler.handle`.  The per-command handlers are passed in as a
total function (every recognized type has a registered handler in the
source); the claims concern the routing of unrecognized types.  `handle`
always returns a response — it catches exceptions and never closes the
session. -/

inductive MessageType where
  | startAgent
  | cancelExecution
  | pauseExecution
  | resumeExecution
  | getProject
  | updateProject
  | getProjectStatus
  | getExecution
  | getExecutionLogs
  | getFile
  | listFiles
  | getAgentConfig
  | updateAgentConfig
  | subscribe
  | unsubscribe
  | ping
  | heartbeat
deriving DecidableEq, Repr

/-- The wire value of each recognized command. -/
def messageTypeValue : MessageType → String
  | .startAgent => "start_agent"
  | .cancelExecution => "cancel_execution"
  | .pauseExecution => "pause_execution"
  | .resumeExecution => "resume_execution"
  | .getProject => "get_project"
  | .updateProject => "update_project"
  | .getProjectStatus => "get_project_status"
  | .getExecution => "get_execution"
  | .getExecutionLogs => "get_execution_logs"
  | .getFile => "get_file"
  | .listFiles => "list_files"
  | .getAgentConfig => "get_agent_config"
  | .updateAgentConfig => "update_agent_config"
  | .subscribe => "subscribe"
  | .unsubscribe => "unsubscribe"
  | .ping => "ping"
  | .heartbeat => "heartbeat"

/-- `MessageType(message_type)`: parse a wire string into the closed
command set, `none` on a `ValueError`. -/
def parseMessageType (s : String) : Option MessageType :=
  if s = "start_agent" then some .startAgent
  else if s = "cancel_execution" then some .cancelExecution
  else if s = "pause_execution" then some .pauseExecution
  else if s = "resume_execution" then some .resumeExecution
  else if s = "get_project" then some .getProject
  else if s = "update_project" then some .updateProject
  else if s = "get_project_status" then some .getProjectStatus
  else if s = "get_execution" then some .getExecution
  else if s = "get_execution_logs" then some .getExecutionLogs
  else if s = "get_file" then some .getFile
  else if s = "list_files" then some .listFiles
  else if s = "get_agent_config" then some .getAgentConfig
  else if s = "update_agent_config" then some .updateAgentConfig
  else if s = "subscribe" then some .subscribe
  else if s = "unsubscribe" then some .unsubscribe
  else if s = "ping" then some .ping
  else if s = "heartbeat" then some .heartbeat
  else none

/-- The `{success, message_type, data?, error?, timestamp}` wrapper every
handler returns; `data` is an opaque payload. -/
structure MessageResponse where
  success : Bool
  messageType : String
  data : Option String
  error : Option String
  timestamp : Int
deriving DecidableEq, Repr

/-- The routing shell of `MessageHandler.handle`: unknown types produce
the failure response; known types go to the registered handler. -/
def handleMessage (mt : String)
    (dispatch : MessageType → MessageResponse) (now : Int) :
    MessageResponse :=
  match parseMessageType mt with
  | none =>
    { success := false, messageType := mt, data := none,
      error := some ("Unknown message type: " ++ mt), timestamp := now }
  | some t => dispatch t

/-- A stand-in handler table used to evaluate the router at a concrete
unknown command. -/
def dispatchStub : MessageType → MessageResponse :=
  fun t => { success := true, messageType := messageTypeValue t,
             data := none, error := none, timestamp := 0 }

/-- C9 counterexample: for the unknown type `"bogus"` the router's error
string is `"Unknown message type: bogus"`, which is not equal to the bare
string `"Unknown message type"` the claim requires. -/
theorem unknown_message_type_counterexample :
    (handleMessage "bogus" dispatchStub 0).success = false
    ∧ (handleMessage "bogus" dispatchStub 0).error
        = some ("Unknown message type: bogus")
    ∧ (handleMessage "bogus" dispatchStub 0).error
        ≠ some "Unknown message type" := by
  refine ⟨rfl, rfl, by decide⟩

/-- C9 amended: every message whose type is outside the closed command
set gets `success = false` and the error `"Unknown message type: "`
followed by the received type, echoed back with a response (the router
returns rather than disconnecting); recognized commands reach their
handler, and every recognized wire value parses back to its command. -/
theorem unknown_message_type_response (mt : String)
    (dispatch : MessageType → MessageResponse) (now : Int) :
    (parseMessageType mt = none →
      handleMessage mt dispatch now
        = { success := false, messageType := mt, data := none,
            error := some ("Unknown message type: " ++ mt),
            timestamp := now })
    ∧ (∀ t, parseMessageType mt = some t →
        handleMessage mt dispatch now = dispatch t)
    ∧ (∀ t, parseMessageType (messageTypeValue t) = some t) := by
  refine ⟨?_, ?_, ?_⟩
  · intro h; simp [handleMessage, h]
  · intro t h; simp [handleMessage, h]
  · intro t; cases t <;> rfl

/-- C9 witness: the unknown-type branch at `"bogus"` and the known-type
branch at `"ping"`. -/
theorem unknown_message_type_response_witness :
    handleMessage "bogus" dispatchStub 7
      = { success := false, messageType := "bogus", data := none,
          error := some ("Unknown message type: bogus"), timestamp := 7 }
    ∧ handleMessage "ping" dispatchStub 7 = dispatchStub .ping :=
  ⟨(unknown_message_type_response "bogus" dispatchStub 7).1 rfl,
   (unknown_message_type_response "ping" dispatchStub 7).2.1 .ping rfl⟩

/-! ## Workspace file handler (`app/metagpt_integration/file_handler.py`)

`FileHandler.read_file` validates the relative path (reject a leading
`/` or any occurrence of the substring `..`), joins it under the
workspace directory `{root}/{project_id}`, canonicalizes with
`os.path.abspath` (which is `posixpath.normpath` for absolute paths) and
re-checks that the result starts with the canonicalized workspace before
touching the filesystem.  Paths are lists of characters; `normpath`
follows the `posixpath` algorithm. -/

/-- Python's `s.startswith("/")`. -/
def startsWithSlash (p : List Char) : Bool :=
  p.take 1 = ['/']

/-- Python's `".." in s`: two consecutive dots anywhere. -/
def hasDotDot : List Char → Bool
  | [] => false
  | [_] => false
  | a :: b :: rest => (a = '.' && b = '.') || hasDotDot (b :: rest)

/-- Split on `/` (like `str.split("/")`: keeps empty components; the
recursive call is never `[]`, so prepending to its head is the match of
the textbook definition). -/
def splitSep : List Char → List (List Char)
  | [] => [[]]
  | c :: cs =>
    if c = '/' then [] :: splitSep cs
    else (c :: (splitSep cs).headD []) :: (splitSep cs).tail

/-- Join components with `/` (like `"/".join`). -/
def joinSep : List (List Char) → List Char
  | [] => []
  | [p] => p
  | p :: ps => p ++ '/' :: joinSep ps

/-- The number of leading slashes `posixpath.normpath` preserves. -/
def initSlashes (p : List Char) : Nat :=
  if p.take 1 = ['/'] then
    if p.take 2 = ['/', '/'] && !(p.take 3 = ['/', '/', '/']) then 2
    else 1
  else 0

/-- The component loop of `posixpath.normpath`: drop empty and `.`
components, resolve `..` against the accumulated prefix. -/
def normComps (slashes : Nat) (acc : List (List Char)) :
    List (List Char) → List (List Char)
  | [] => acc
  | comp :: rest =>
    if comp = [] ∨ comp = ['.'] then normComps slashes acc rest
    else if comp ≠ ['.', '.'] ∨ (slashes = 0 ∧ acc = [])
        ∨ (acc ≠ [] ∧ acc.getLast? = some ['.', '.']) then
      normComps slashes (acc ++ [comp]) rest
    else if acc ≠ [] then normComps slashes acc.dropLast rest
    else normComps slashes acc rest

/-- `posixpath.normpath`. -/
def normpath (p : List Char) : List Char :=
  if p = [] then ['.']
  else if List.replicate (initSlashes p) '/'
      ++ joinSep (normComps (initSlashes p) [] (splitSep p)) = [] then
    ['.']
  else
    List.replicate (initSlashes p) '/'
      ++ joinSep (normComps (initSlashes p) [] (splitSep p))

/-- The two `ValueError` causes of `FileHandler.read_file` (everything
after the `.ok` is filesystem I/O). -/
inductive ReadError where
  | invalidPath
  | outsideWorkspace
deriving DecidableEq, Repr

/-- The validation and canonicalization stage of `FileHandler.read_file`
for workspace directory `ws = {root}/{project_id}` and relative path `p`:
reject before any path resolution if `p` starts with `/` or contains
`..`; resolve and reject unless the resolved path string-starts with the
resolved workspace; otherwise the I/O proceeds on the returned canonical
path. -/
def readFileCheck (ws p : List Char) : Except ReadError (List Char) :=
  if startsWithSlash p || hasDotDot p then .error .invalidPath
  else if !(List.isPrefixOf (normpath ws) (normpath (ws ++ '/' :: p)))
      then .error .outsideWorkspace
  else .ok (normpath (ws ++ '/' :: p))

theorem splitSep_ne_nil (cs : List Char) : splitSep cs ≠ [] := by
  induction cs with
  | nil => simp [splitSep]
  | cons c cs ih =>
    by_cases h : c = '/' <;> simp [splitSep, h]

theorem joinSep_splitSep (cs : List Char) :
    joinSep (splitSep cs) = cs := by
  induction cs with
  | nil => rfl
  | cons c cs ih =>
    by_cases h : c = '/'
    · cases hs : splitSep cs with
      | nil => exact absurd hs (splitSep_ne_nil cs)
      | cons t ts =>
        rw [hs] at ih
        simp [splitSep, h, joinSep, ih, hs]
    · cases hs : splitSep cs with
      | nil => exact absurd hs (splitSep_ne_nil cs)
      | cons t ts =>
        rw [hs] at ih
        cases ts with
        | nil => simp_all [splitSep, h, hs, joinSep]
        | cons u us => simp_all [splitSep, h, hs, joinSep]

theorem splitSep_append (a b : List Char) :
    splitSep (a ++ '/' :: b) = splitSep a ++ splitSep b := by
  induction a with
  | nil => simp [splitSep]
  | cons c a ih =>
    by_cases h : c = '/'
    · simp [splitSep, h, ih]
    · cases hs : splitSep a with
      | nil => exact absurd hs (splitSep_ne_nil a)
      | cons t ts =>
        rw [hs] at ih
        simp [splitSep, h, ih, hs]

/-- The head component of a split is a prefix of the string. -/
theorem splitSep_head_prefix (cs : List Char) :
    ∀ t ts, splitSep cs = t :: ts → ∃ r, cs = t ++ r := by
  induction cs with
  | nil =>
    intro t ts h
    simp [splitSep] at h
    exact ⟨[], by simp [h.1.symm]⟩
  | cons c cs ih =>
    intro t ts h
    by_cases hc : c = '/'
    · simp [splitSep, hc] at h
      exact ⟨c :: cs, by simp [h.1.symm]⟩
    · cases hs : splitSep cs with
      | nil => exact absurd hs (splitSep_ne_nil cs)
      | cons t' ts' =>
        simp [splitSep, hc, hs] at h
        obtain ⟨r, hr⟩ := ih t' ts' hs
        exact ⟨r, by simp [← h.1, hr]⟩

/-- Every component of a split occurs inside the string. -/
theorem splitSep_mem_occurs (cs : List Char) :
    ∀ p ∈ splitSep cs, ∃ l r, cs = l ++ p ++ r := by
  induction cs with
  | nil =>
    intro p hp
    simp [splitSep] at hp
    exact ⟨[], [], by simp [hp]⟩
  | cons c cs ih =>
    intro p hp
    by_cases hc : c = '/'
    · rw [splitSep, if_pos hc] at hp
      rcases List.mem_cons.mp hp with h | h
      · exact ⟨[], c :: cs, by simp [h]⟩
      · obtain ⟨l, r, hlr⟩ := ih p h
        exact ⟨c :: l, r, by simp [hlr]⟩
    · cases hs : splitSep cs with
      | nil => exact absurd hs (splitSep_ne_nil cs)
      | cons t ts =>
        rw [splitSep, if_neg hc, hs] at hp
        rcases List.mem_cons.mp hp with h | h
        · obtain ⟨r, hr⟩ := splitSep_head_prefix cs t ts hs
          exact ⟨[], r, by simp [h, hr]⟩
        · obtain ⟨l, r, hlr⟩ := ih p (by rw [hs]; exact List.mem_cons_of_mem t h)
          exact ⟨c :: l, r, by simp [hlr]⟩

theorem hasDotDot_cons_of (a : Char) (xs : List Char)
    (h : hasDotDot xs = true) : hasDotDot (a :: xs) = true := by
  cases xs with
  | nil => simp [hasDotDot] at h
  | cons b rest => simp [hasDotDot, h]

theorem hasDotDot_of_occurs (l r : List Char) :
    hasDotDot (l ++ '.' :: '.' :: r) = true := by
  induction l with
  | nil => simp [hasDotDot]
  | cons a l ih => exact hasDotDot_cons_of a _ ih

/-- A string without the substring `..` has no `..` component. -/
theorem splitSep_no_dotdot (cs : List Char)
    (h : hasDotDot cs = false) :
    ∀ p ∈ splitSep cs, p ≠ ['.', '.'] := by
  intro p hp hdd
  obtain ⟨l, r, hlr⟩ := splitSep_mem_occurs cs p hp
  rw [hdd] at hlr
  rw [hlr] at h
  have : hasDotDot (l ++ '.' :: '.' :: r) = true :=
    hasDotDot_of_occurs l r
  simp only [List.append_assoc, List.cons_append, List.nil_append] at h this
  rw [this] at h
  cases h

/-- Plain components (non-empty, not `.`, not `..`) are appended
verbatim by the normalization loop. -/
theorem normComps_plain (comps : List (List Char)) :
    ∀ (acc : List (List Char)) (s : Nat),
    (∀ c ∈ comps, c ≠ [] ∧ c ≠ ['.'] ∧ c ≠ ['.', '.']) →
    normComps s acc comps = acc ++ comps := by
  induction comps with
  | nil => intro acc s _; simp [normComps]
  | cons c comps ih =>
    intro acc s h
    obtain ⟨h1, h2, h3⟩ := h c (by simp)
    rw [normComps, if_neg (by simp [h1, h2]), if_pos (Or.inl h3),
      ih (acc ++ [c]) s (fun d hd => h d (by simp [hd]))]
    simp

/-- Components free of `..` never shrink the accumulator. -/
theorem normComps_extends (comps : List (List Char)) :
    ∀ (acc : List (List Char)) (s : Nat),
    (∀ c ∈ comps, c ≠ ['.', '.']) →
    ∃ extra, normComps s acc comps = acc ++ extra := by
  induction comps with
  | nil => intro acc s _; exact ⟨[], by simp [normComps]⟩
  | cons c comps ih =>
    intro acc s h
    have hc := h c (by simp)
    have hrest : ∀ d ∈ comps, d ≠ ['.', '.'] :=
      fun d hd => h d (by simp [hd])
    by_cases hskip : c = [] ∨ c = ['.']
    · rw [normComps, if_pos hskip]
      exact ih acc s hrest
    · rw [normComps, if_neg hskip, if_pos (Or.inl hc)]
      obtain ⟨extra, hx⟩ := ih (acc ++ [c]) s hrest
      exact ⟨c :: extra, by simp [hx]⟩

theorem joinSep_append_ne_nil :
    ∀ (l₁ l₂ : List (List Char)), l₁ ≠ [] → l₂ ≠ [] →
    joinSep (l₁ ++ l₂) = joinSep l₁ ++ '/' :: joinSep l₂
  | [], _, h₁, _ => absurd rfl h₁
  | [p], q :: qs, _, _ => by simp [joinSep]
  | p :: p' :: ps, [], _, h₂ => absurd rfl h₂
  | p :: p' :: ps, q :: qs, _, h₂ => by
    have ih := joinSep_append_ne_nil (p' :: ps) (q :: qs) (by simp) h₂
    calc joinSep ((p :: p' :: ps) ++ q :: qs)
        = p ++ '/' :: joinSep ((p' :: ps) ++ q :: qs) := by
          simp [joinSep]
      _ = p ++ '/' :: (joinSep (p' :: ps) ++ '/' :: joinSep (q :: qs)) := by
          rw [ih]
      _ = (p ++ '/' :: joinSep (p' :: ps)) ++ '/' :: joinSep (q :: qs) := by
          simp
      _ = joinSep (p :: p' :: ps) ++ '/' :: joinSep (q :: qs) := by
          simp [joinSep]

theorem isPrefixOf_append (l l' : List Char) :
    List.isPrefixOf l (l ++ l') = true := by
  induction l with
  | nil => simp [List.isPrefixOf]
  | cons c cs ih => simp [List.isPrefixOf, ih]

/-- Processing a run of plain components flushes them onto the
accumulator. -/
theorem normComps_plain_prefix (plain : List (List Char)) :
    ∀ (rest acc : List (List Char)) (s : Nat),
    (∀ c ∈ plain, c ≠ [] ∧ c ≠ ['.'] ∧ c ≠ ['.', '.']) →
    normComps s acc (plain ++ rest) = normComps s (acc ++ plain) rest := by
  induction plain with
  | nil => intro rest acc s _; simp
  | cons c plain ih =>
    intro rest acc s h
    obtain ⟨h1, h2, h3⟩ := h c (by simp)
    rw [List.cons_append, normComps, if_neg (by simp [h1, h2]),
      if_pos (Or.inl h3),
      ih rest (acc ++ [c]) s (fun d hd => h d (by simp [hd]))]
    simp

/-- A workspace path `/t` whose components are plain is a fixed point of
`normpath`. -/
theorem normpath_wellformed (t : List Char) (ht : t ≠ [])
    (hcomps : ∀ c ∈ splitSep t, c ≠ [] ∧ c ≠ ['.'] ∧ c ≠ ['.', '.']) :
    normpath ('/' :: t) = '/' :: t := by
  obtain ⟨c, t', rfl⟩ : ∃ c t', t = c :: t' := by
    cases t with
    | nil => exact absurd rfl ht
    | cons c t' => exact ⟨c, t', rfl⟩
  have hc : c ≠ '/' := by
    intro hcc
    subst hcc
    have : ([] : List Char) ∈ splitSep ('/' :: t') := by
      simp [splitSep]
    exact (hcomps [] this).1 rfl
  have hIS : initSlashes ('/' :: c :: t') = 1 := by
    simp [initSlashes, List.take, hc]
  have hSS : splitSep ('/' :: c :: t') = [] :: splitSep (c :: t') := by
    simp [splitSep]
  have hNC : normComps 1 [] ([] :: splitSep (c :: t'))
      = splitSep (c :: t') := by
    rw [normComps, if_pos (Or.inl rfl)]
    exact normComps_plain (splitSep (c :: t')) [] 1 hcomps
  rw [normpath, if_neg (by simp), hIS, hSS, hNC, joinSep_splitSep]
  simp

/-- C3 counterexample: for the workspace `/ws/p1` the relative path `.`
passes validation (no `..` substring, no leading slash) and canonicalizes
to exactly `/ws/p1`, of which the string `/ws/p1/` is not a prefix. -/
theorem read_file_dot_counterexample :
    readFileCheck ['/', 'w', 's', '/', 'p', '1'] ['.']
        = .ok ['/', 'w', 's', '/', 'p', '1']
    ∧ List.isPrefixOf (['/', 'w', 's', '/', 'p', '1'] ++ ['/'])
        ['/', 'w', 's', '/', 'p', '1'] = false := by
  refine ⟨rfl, rfl⟩

/-- C3 amended: for a workspace directory `/t` with plain components,
every relative path accepted by the validation (no leading `/`, no `..`
substring) canonicalizes to the workspace itself or to a path with
`/t/` as a prefix — and any path with a leading `/` or a `..` substring
is rejected with the validation error before any path resolution or
I/O. -/
theorem read_file_path_containment (t P : List Char) (ht : t ≠ [])
    (hcomps : ∀ c ∈ splitSep t, c ≠ [] ∧ c ≠ ['.'] ∧ c ≠ ['.', '.'])
    (hP : startsWithSlash P = false) (hPdd : hasDotDot P = false) :
    (∃ res, readFileCheck ('/' :: t) P = .ok res
      ∧ (res = '/' :: t
        ∨ List.isPrefixOf ('/' :: t ++ ['/']) res = true))
    ∧ (∀ Q, startsWithSlash Q = true ∨ hasDotDot Q = true →
        readFileCheck ('/' :: t) Q = .error .invalidPath) := by
  constructor
  · obtain ⟨c, t', rfl⟩ : ∃ c t', t = c :: t' := by
      cases t with
      | nil => exact absurd rfl ht
      | cons c t' => exact ⟨c, t', rfl⟩
    have hc : c ≠ '/' := by
      intro hcc
      subst hcc
      have : ([] : List Char) ∈ splitSep ('/' :: t') := by
        simp [splitSep]
      exact (hcomps [] this).1 rfl
    have hfull : ('/' :: c :: t') ++ '/' :: P
        = '/' :: ((c :: t') ++ '/' :: P) := rfl
    have hIS : initSlashes ('/' :: ((c :: t') ++ '/' :: P)) = 1 := by
      simp [initSlashes, List.take, hc]
    have hslash : ∀ cs : List Char,
        splitSep ('/' :: cs) = [] :: splitSep cs := by
      intro cs; simp [splitSep]
    have hSS : splitSep ('/' :: ((c :: t') ++ '/' :: P))
        = [] :: (splitSep (c :: t') ++ splitSep P) := by
      rw [hslash, splitSep_append]
    obtain ⟨extra, hextra⟩ :=
      normComps_extends (splitSep P) (splitSep (c :: t')) 1
        (splitSep_no_dotdot P hPdd)
    have hNC : normComps 1 [] ([] :: (splitSep (c :: t') ++ splitSep P))
        = splitSep (c :: t') ++ extra := by
      rw [normComps, if_pos (Or.inl rfl),
        normComps_plain_prefix (splitSep (c :: t')) (splitSep P) [] 1
          hcomps]
      simpa using hextra
    have hval : (startsWithSlash P || hasDotDot P) = false := by
      simp [hP, hPdd]
    have hws : normpath ('/' :: c :: t') = '/' :: c :: t' :=
      normpath_wellformed (c :: t') (by simp) hcomps
    cases extra with
    | nil =>
      have hNorm : normpath (('/' :: c :: t') ++ '/' :: P)
          = '/' :: c :: t' := by
        rw [hfull, normpath, if_neg (by simp), hIS, hSS, hNC,
          List.append_nil, joinSep_splitSep]
        simp
      refine ⟨'/' :: c :: t', ?_, Or.inl rfl⟩
      rw [readFileCheck, if_neg (by simp [hval]), hNorm, hws,
        if_neg (by simp [isPrefixOf_append ('/' :: c :: t') []])]
    | cons e es =>
      have hjoin : joinSep (splitSep (c :: t') ++ e :: es)
          = (c :: t') ++ '/' :: joinSep (e :: es) := by
        rw [joinSep_append_ne_nil (splitSep (c :: t')) (e :: es)
          (splitSep_ne_nil (c :: t')) (by simp), joinSep_splitSep]
      have hNorm : normpath (('/' :: c :: t') ++ '/' :: P)
          = ('/' :: c :: t') ++ '/' :: joinSep (e :: es) := by
        rw [hfull, normpath, if_neg (by simp), hIS, hSS, hNC, hjoin]
        simp
      refine ⟨('/' :: c :: t') ++ '/' :: joinSep (e :: es), ?_, ?_⟩
      · rw [readFileCheck, if_neg (by simp [hval]), hNorm, hws,
          if_neg (by simp [isPrefixOf_append ('/' :: c :: t')
            ('/' :: joinSep (e :: es))])]
      · right
        have : ('/' :: c :: t') ++ '/' :: joinSep (e :: es)
            = (('/' :: c :: t') ++ ['/']) ++ joinSep (e :: es) := by
          simp
        rw [this]
        exact isPrefixOf_append _ _
  · intro Q hq
    rcases hq with h | h <;> simp [readFileCheck, h]

/-- C3 witness: the workspace `/ws/p1` with the accepted path
`src/m` resolves inside the workspace, and both traversal inputs are
rejected. -/
theorem read_file_path_containment_witness :
    (∃ res, readFileCheck ['/', 'w', 's', '/', 'p', '1']
        ['s', 'r', 'c', '/', 'm'] = .ok res
      ∧ (res = ['/', 'w', 's', '/', 'p', '1']
        ∨ List.isPrefixOf (['/', 'w', 's', '/', 'p', '1'] ++ ['/'])
            res = true))
    ∧ readFileCheck ['/', 'w', 's', '/', 'p', '1']
        ['.', '.', '/', 'e'] = .error .invalidPath := by
  have h := read_file_path_containment
    ['w', 's', '/', 'p', '1'] ['s', 'r', 'c', '/', 'm']
    (by decide) (by decide) (by decide) (by decide)
  exact ⟨h.1, h.2 ['.', '.', '/', 'e'] (Or.inr (by decide))⟩

/-! ## Connection registry (`app/websocket/connection_manager.py`)

The three maps of `ConnectionManager` (`connections`,
`user_connections`, `project_connections`) and the `connect` /
`disconnect` operations.  Maps are functions into `Option`; a `none`
entry is an absent key, matching the delete-when-empty discipline of the
source (`defaultdict` keys materialize and are deleted again when their
set empties).  Session handles, timestamps and counters are omitted —
the maps' mutual consistency does not depend on them. -/

structure ConnInfo where
  userId : String
  projectId : Option String
deriving DecidableEq, Repr

structure ConnState where
  connections : String → Option ConnInfo
  userConns : String → Option (Finset String)
  projectConns : String → Option (Finset String)

def emptyState : ConnState :=
  { connections := fun _ => none, userConns := fun _ => none,
    projectConns := fun _ => none }

/-- `ConnectionManager.connect`: raise on a duplicate id before touching
any map, otherwise insert into all three indexes. -/
def connect (s : ConnState) (cid uid : String) (pid : Option String) :
    Except String ConnState :=
  if (s.connections cid).isSome then
    .error ("Connection " ++ cid ++ " already exists")
  else .ok
    { connections := fun c =>
        if c = cid then some ⟨uid, pid⟩ else s.connections c,
      userConns := fun u =>
        if u = uid then some (insert cid ((s.userConns uid).getD ∅))
        else s.userConns u,
      projectConns :=
        match pid with
        | none => s.projectConns
        | some p => fun q =>
          if q = p then some (insert cid ((s.projectConns p).getD ∅))
          else s.projectConns q }

/-- `ConnectionManager.disconnect`: remove the id from all three maps,
dropping a user or project key whose set empties. -/
def disconnect (s : ConnState) (cid : String) : Bool × ConnState :=
  match s.connections cid with
  | none => (false, s)
  | some ci =>
    (true,
      { connections := fun c =>
          if c = cid then none else s.connections c,
        userConns := fun u =>
          if u = ci.userId then
            (if ((s.userConns ci.userId).getD ∅).erase cid = ∅ then none
             else some (((s.userConns ci.userId).getD ∅).erase cid))
          else s.userConns u,
        projectConns :=
          match ci.projectId with
          | none => s.projectConns
          | some p => fun q =>
            if q = p then
              (if ((s.projectConns p).getD ∅).erase cid = ∅ then none
               else some (((s.projectConns p).getD ∅).erase cid))
            else s.projectConns q })

/-- Mutual consistency of the three maps: ids in user/project sets are
live connections of that user/project, every live connection is indexed
under its user (and project, when set), and no key holds an empty
set. -/
structure ConnInv (s : ConnState) : Prop where
  userSound : ∀ u cids, s.userConns u = some cids →
    ∀ c ∈ cids, ∃ ci, s.connections c = some ci ∧ ci.userId = u
  projSound : ∀ p cids, s.projectConns p = some cids →
    ∀ c ∈ cids, ∃ ci, s.connections c = some ci ∧ ci.projectId = some p
  userComplete : ∀ c ci, s.connections c = some ci →
    ∃ cids, s.userConns ci.userId = some cids ∧ c ∈ cids
  projComplete : ∀ c ci p, s.connections c = some ci →
    ci.projectId = some p →
    ∃ cids, s.projectConns p = some cids ∧ c ∈ cids
  userNonempty : ∀ u cids, s.userConns u = some cids → cids ≠ ∅
  projNonempty : ∀ p cids, s.projectConns p = some cids → cids ≠ ∅

theorem conn_inv_empty : ConnInv emptyState := by
  constructor <;> intro a b hab <;> simp_all [emptyState]

theorem connect_preserves (s : ConnState) (cid uid : String)
    (pid : Option String) (h : ConnInv s) (s' : ConnState)
    (hok : connect s cid uid pid = .ok s') : ConnInv s' := by
  rw [connect.eq_def] at hok
  split_ifs at hok with hex
  have hnone : s.connections cid = none :=
    Option.not_isSome_iff_eq_none.mp hex
  simp only [Except.ok.injEq] at hok
  subst hok
  constructor
  · -- userSound
    intro u cids hu c hcmem
    by_cases huu : u = uid
    · subst huu
      simp at hu
      subst hu
      rcases Finset.mem_insert.mp hcmem with rfl | hold
      · exact ⟨⟨u, pid⟩, by simp, rfl⟩
      · cases hso : s.userConns u with
        | none => simp [hso] at hold
        | some cids₀ =>
          rw [hso] at hold
          simp only [Option.getD_some] at hold
          obtain ⟨ci, hci, hciu⟩ := h.userSound u cids₀ hso c hold
          have hne : c ≠ cid := fun hcc => by
            rw [hcc, hnone] at hci; cases hci
          exact ⟨ci, by simp [hne, hci], hciu⟩
    · simp only [if_neg huu] at hu
      obtain ⟨ci, hci, hciu⟩ := h.userSound u cids hu c hcmem
      have hne : c ≠ cid := fun hcc => by
        rw [hcc, hnone] at hci; cases hci
      exact ⟨ci, by simp [hne, hci], hciu⟩
  · -- projSound
    intro p cids hp c hcmem
    cases pid with
    | none =>
      simp only at hp
      obtain ⟨ci, hci, hcip⟩ := h.projSound p cids hp c hcmem
      have hne : c ≠ cid := fun hcc => by
        rw [hcc, hnone] at hci; cases hci
      exact ⟨ci, by simp [hne, hci], hcip⟩
    | some p0 =>
      by_cases hpp : p = p0
      · subst hpp
        simp at hp
        subst hp
        rcases Finset.mem_insert.mp hcmem with rfl | hold
        · exact ⟨⟨uid, some p⟩, by simp, rfl⟩
        · cases hso : s.projectConns p with
          | none => simp [hso] at hold
          | some cids₀ =>
            rw [hso] at hold
            simp only [Option.getD_some] at hold
            obtain ⟨ci, hci, hcip⟩ := h.projSound p cids₀ hso c hold
            have hne : c ≠ cid := fun hcc => by
              rw [hcc, hnone] at hci; cases hci
            exact ⟨ci, by simp [hne, hci], hcip⟩
      · simp only [if_neg hpp] at hp
        obtain ⟨ci, hci, hcip⟩ := h.projSound p cids hp c hcmem
        have hne : c ≠ cid := fun hcc => by
          rw [hcc, hnone] at hci; cases hci
        exact ⟨ci, by simp [hne, hci], hcip⟩
  · -- userComplete
    intro c ci hc
    by_cases hcc : c = cid
    · subst hcc
      simp at hc
      subst hc
      exact ⟨insert c ((s.userConns uid).getD ∅), by simp,
        Finset.mem_insert_self c _⟩
    · simp only [if_neg hcc] at hc
      obtain ⟨cids, hcids, hmem⟩ := h.userComplete c ci hc
      by_cases huu : ci.userId = uid
      · rw [huu] at hcids
        exact ⟨insert cid ((s.userConns uid).getD ∅), by simp [huu],
          by simp [hcids, Finset.mem_insert, hmem]⟩
      · exact ⟨cids, by simp [huu, hcids], hmem⟩
  · -- projComplete
    intro c ci p hc hcip
    cases pid with
    | none =>
      by_cases hcc : c = cid
      · subst hcc
        simp at hc
        subst hc
        cases hcip
      · simp only [if_neg hcc] at hc
        exact h.projComplete c ci p hc hcip
    | some p0 =>
      by_cases hcc : c = cid
      · subst hcc
        simp at hc
        subst hc
        simp only at hcip
        cases hcip
        exact ⟨insert c ((s.projectConns p).getD ∅), by simp,
          Finset.mem_insert_self c _⟩
      · simp only [if_neg hcc] at hc
        obtain ⟨cids, hcids, hmem⟩ := h.projComplete c ci p hc hcip
        by_cases hpp : p = p0
        · subst hpp
          exact ⟨insert cid ((s.projectConns p).getD ∅), by simp,
            by simp [hcids, Finset.mem_insert, hmem]⟩
        · exact ⟨cids, by simp [hpp, hcids], hmem⟩
  · -- userNonempty
    intro u cids hu
    by_cases huu : u = uid
    · subst huu
      simp at hu
      subst hu
      exact Finset.insert_ne_empty _ _
    · simp only [if_neg huu] at hu
      exact h.userNonempty u cids hu
  · -- projNonempty
    intro p cids hp
    cases pid with
    | none => exact h.projNonempty p cids hp
    | some p0 =>
      by_cases hpp : p = p0
      · subst hpp
        simp at hp
        subst hp
        exact Finset.insert_ne_empty _ _
      · simp only [if_neg hpp] at hp
        exact h.projNonempty p cids hp

theorem disconnect_preserves (s : ConnState) (cid : String)
    (h : ConnInv s) : ConnInv (disconnect s cid).2 := by
  cases hconn : s.connections cid with
  | none =>
    simp only [disconnect, hconn]
    exact h
  | some ci =>
    simp only [disconnect, hconn]
    constructor
    · -- userSound
      intro u cids hu c hcmem
      by_cases huu : u = ci.userId
      · simp only [if_pos huu] at hu
        by_cases hemp : ((s.userConns ci.userId).getD ∅).erase cid = ∅
        · rw [if_pos hemp] at hu; cases hu
        · rw [if_neg hemp] at hu
          simp only [Option.some.injEq] at hu
          subst hu
          obtain ⟨hne, hold⟩ := Finset.mem_erase.mp hcmem
          cases hso : s.userConns ci.userId with
          | none => rw [hso] at hold; simp at hold
          | some cids₀ =>
            rw [hso] at hold
            simp only [Option.getD_some] at hold
            obtain ⟨ci', hci', hciu⟩ :=
              h.userSound ci.userId cids₀ hso c hold
            exact ⟨ci', by simp [hne, hci'], hciu.trans huu.symm⟩
      · simp only [if_neg huu] at hu
        obtain ⟨ci', hci', hciu⟩ := h.userSound u cids hu c hcmem
        have hne : c ≠ cid := by
          intro hcc
          rw [hcc, hconn] at hci'
          cases hci'
          exact huu hciu.symm
        exact ⟨ci', by simp [hne, hci'], hciu⟩
    · -- projSound
      intro p cids hp c hcmem
      cases hpid : ci.projectId with
      | none =>
        rw [hpid] at hp
        simp only at hp
        obtain ⟨ci', hci', hcip⟩ := h.projSound p cids hp c hcmem
        have hne : c ≠ cid := by
          intro hcc
          rw [hcc, hconn] at hci'
          cases hci'
          rw [hpid] at hcip
          cases hcip
        exact ⟨ci', by simp [hne, hci'], hcip⟩
      | some p0 =>
        rw [hpid] at hp
        simp only at hp
        by_cases hpp : p = p0
        · simp only [if_pos hpp] at hp
          by_cases hemp : ((s.projectConns p0).getD ∅).erase cid = ∅
          · rw [if_pos hemp] at hp; cases hp
          · rw [if_neg hemp] at hp
            simp only [Option.some.injEq] at hp
            subst hp
            obtain ⟨hne, hold⟩ := Finset.mem_erase.mp hcmem
            cases hso : s.projectConns p0 with
            | none => rw [hso] at hold; simp at hold
            | some cids₀ =>
              rw [hso] at hold
              simp only [Option.getD_some] at hold
              obtain ⟨ci', hci', hcip⟩ :=
                h.projSound p0 cids₀ hso c hold
              exact ⟨ci', by simp [hne, hci'], by rw [hpp]; exact hcip⟩
        · simp only [if_neg hpp] at hp
          obtain ⟨ci', hci', hcip⟩ := h.projSound p cids hp c hcmem
          have hne : c ≠ cid := by
            intro hcc
            rw [hcc, hconn] at hci'
            cases hci'
            rw [hpid] at hcip
            simp only [Option.some.injEq] at hcip
            exact hpp hcip.symm
          exact ⟨ci', by simp [hne, hci'], hcip⟩
    · -- userComplete
      intro c ci' hc
      by_cases hcc : c = cid
      · simp only [if_pos hcc] at hc; cases hc
      · simp only [if_neg hcc] at hc
        obtain ⟨cids, hcids, hmem⟩ := h.userComplete c ci' hc
        by_cases huu : ci'.userId = ci.userId
        · rw [huu] at hcids
          refine ⟨cids.erase cid, ?_, Finset.mem_erase.mpr ⟨hcc, hmem⟩⟩
          have hgd : (s.userConns ci.userId).getD ∅ = cids := by
            rw [hcids]; rfl
          have hne : cids.erase cid ≠ ∅ := by
            intro hmt
            have hcm : c ∈ cids.erase cid :=
              Finset.mem_erase.mpr ⟨hcc, hmem⟩
            rw [hmt] at hcm
            simp at hcm
          simp [huu, hgd, hne]
        · exact ⟨cids, by simp [huu, hcids], hmem⟩
    · -- projComplete
      intro c ci' p hc hcip
      by_cases hcc : c = cid
      · simp only [if_pos hcc] at hc; cases hc
      · simp only [if_neg hcc] at hc
        obtain ⟨cids, hcids, hmem⟩ := h.projComplete c ci' p hc hcip
        cases hpid : ci.projectId with
        | none => exact ⟨cids, by simp [hpid, hcids], hmem⟩
        | some p0 =>
          by_cases hpp : p = p0
          · subst hpp
            refine ⟨cids.erase cid, ?_, Finset.mem_erase.mpr ⟨hcc, hmem⟩⟩
            have hgd : (s.projectConns p).getD ∅ = cids := by
              rw [hcids]; rfl
            have hne : cids.erase cid ≠ ∅ := by
              intro hmt
              have hcm : c ∈ cids.erase cid :=
                Finset.mem_erase.mpr ⟨hcc, hmem⟩
              rw [hmt] at hcm
              simp at hcm
            simp [hpid, hgd, hne]
          · exact ⟨cids, by simp [hpid, hpp, hcids], hmem⟩
    · -- userNonempty
      intro u cids hu
      by_cases huu : u = ci.userId
      · simp only [if_pos huu] at hu
        by_cases hemp : ((s.userConns ci.userId).getD ∅).erase cid = ∅
        · rw [if_pos hemp] at hu; cases hu
        · rw [if_neg hemp] at hu
          simp only [Option.some.injEq] at hu
          subst hu
          exact hemp
      · simp only [if_neg huu] at hu
        exact h.userNonempty u cids hu
    · -- projNonempty
      intro p cids hp
      cases hpid : ci.projectId with
      | none =>
        rw [hpid] at hp
        exact h.projNonempty p cids hp
      | some p0 =>
        rw [hpid] at hp
        simp only at hp
        by_cases hpp : p = p0
        · simp only [if_pos hpp] at hp
          by_cases hemp : ((s.projectConns p0).getD ∅).erase cid = ∅
          · rw [if_pos hemp] at hp; cases hp
          · rw [if_neg hemp] at hp
            simp only [Option.some.injEq] at hp
            subst hp
            exact hemp
        · simp only [if_neg hpp] at hp
          exact h.projNonempty p cids hp

/-- C10: the connection registry's three maps stay mutually consistent:
after every successful `connect` and every `disconnect` the invariant
holds (ids in user/project sets are live connection keys, each live
connection appears in its user's set and — when scoped — its project's
set, and no key holds an empty set), and `connect` on an existing id
fails with the duplicate error, returning no new state. -/
theorem connection_registry_consistency (s : ConnState)
    (cid uid : String) (pid : Option String) (h : ConnInv s) :
    (∀ s', connect s cid uid pid = .ok s' → ConnInv s')
    ∧ ConnInv (disconnect s cid).2
    ∧ ((s.connections cid).isSome = true →
        connect s cid uid pid
          = .error ("Connection " ++ cid ++ " already exists")) :=
  ⟨fun s' hok => connect_preserves s cid uid pid h s' hok,
   disconnect_preserves s cid h,
   fun hex => by rw [connect.eq_def, if_pos hex]⟩

/-- C10 witness: the invariant holds of the empty registry and is
carried through a concrete disconnect. -/
theorem connection_registry_consistency_witness :
    ConnInv (disconnect emptyState "c1").2 :=
  (connection_registry_consistency emptyState "c1" "u1" (some "p1")
    conn_inv_empty).2.1

end XTeam
